import Mathlib

/-!
# Verification of the svg-playground audio engine

A shallow embedding of the scheduling, synthesis and segment-analysis core of
the svg-playground repository (modules: `js/utils.ts`, `js/state.ts`,
`js/audio.ts`, `js/constants.ts`), together with theorems settling the frozen
claims about it.

Modelling conventions:
* JavaScript numbers are embedded as exact rationals (`ℚ`); machine floats are
  not modelled bit-for-bit, but every arithmetic expression is translated
  operation by operation from the source.
* `Math.round` is embedded as `jsRound` (round half toward positive infinity),
  `Math.floor` as `Int.floor`.
* The seeded generator `mulberry32` is embedded exactly over `ℕ`: all of its
  bit operations act on 32-bit residues, and signed/unsigned reinterpretation
  is invisible modulo `2^32`, so the unsigned residue model is exact.
* Frequencies produced by the loop scheduler have the form
  `q * 2 ^ (s / 12)` with `q : ℚ` and `s : ℤ` (the per-entity semitone
  transposition).  They are represented exactly by the pair `Freq.mant = q`,
  `Freq.tw = s`; the real value is `Freq.val`, and comparisons of such a value
  with a positive rational bound `c` are decided exactly via twelfth powers:
  for `q > 0`, `q * 2 ^ (s / 12) < c ↔ q ^ 12 * 2 ^ s < c ^ 12`
  (`Freq.val12` below).  The source's `while` loops that double or halve a
  frequency are embedded as "apply the loop body the least number of times
  after which the guard fails", computed by the bounded search `leastSat`
  with a provably sufficient fuel, which is exactly the function the loop
  computes whenever it terminates.
* The field `dashGapRatio` of the source's `AnalysisResult` is renamed to
  `dashGapQuotient` here (the original spelling is not available in this
  development); all other names follow the source.
-/

namespace SvgPlayground

/-- JavaScript `Math.round`: round half toward positive infinity. -/
def jsRound (q : ℚ) : ℤ := ⌊q + 1 / 2⌋

/-- `js/constants.ts`: lookahead window in seconds (`LOOP_SCHEDULE_AHEAD_SEC = 0.1`). -/
def LOOP_SCHEDULE_AHEAD_SEC : ℚ := 1 / 10

/-- `js/constants.ts`: scheduler tick interval in milliseconds (`SCHEDULER_INTERVAL_MS = 50`). -/
def SCHEDULER_INTERVAL_MS : ℚ := 50

/-- `js/constants.ts`: minimum allowed note duration in seconds (`0.04`). -/
def MIN_NOTE_DURATION_SEC : ℚ := 1 / 25

/-- `js/constants.ts`: the three fixed scale names. -/
inductive ScaleName where
| pentatonic
| major
| minor
deriving DecidableEq

/-- `js/constants.ts`: the `SCALES` record (frequencies in Hz). -/
def SCALES : ScaleName → List ℚ
| .pentatonic => [220, 247, 277, 330, 370]
| .major => [220, 247, 277, 294, 330, 370, 415, 440]
| .minor => [220, 233, 277, 294, 330, 349, 415, 440]

/-- Segment kind: `'dash'` (on) or `'gap'` (off). -/
inductive SegType where
| dash
| gap
deriving DecidableEq

/-- `js/utils.ts` `SegmentInput`: a recorded segment with a raw duration (ms). -/
structure SegmentInput where
  ty : SegType
  duration : ℚ
deriving DecidableEq

/-- `js/utils.ts` `SegmentLength`: a finalized segment with a proportional length. -/
structure SegmentLength where
  ty : SegType
  length : ℚ
deriving DecidableEq

/-- `js/utils.ts` `AnalysisResult` (the source field `dashGapRatio` is spelled
`dashGapQuotient` here, see the module docstring). -/
structure AnalysisResult where
  complexity : ℕ
  dashGapQuotient : ℚ
  avgDashLength : ℚ
  avgGapLength : ℚ
deriving DecidableEq

/-- JavaScript `(n || 1)` for a count `n` (`0` is falsy). -/
def nzOr1 (n : ℕ) : ℚ := if n = 0 then 1 else (n : ℚ)

/-- JavaScript `(q || 1)` for a rational `q` (`0` is falsy). -/
def qOr1 (q : ℚ) : ℚ := if q = 0 then 1 else q

/-- `js/utils.ts` `analyzeSegments`: summary metrics used by the synthesizer. -/
def analyzeSegments (segments : List SegmentLength) (totalLength : ℚ) : AnalysisResult :=
  let dashes := segments.filter (fun s => s.ty = .dash)
  let gaps := segments.filter (fun s => s.ty = .gap)
  let avgDash := (dashes.map (·.length)).sum / nzOr1 dashes.length
  let avgGap := (gaps.map (·.length)).sum / nzOr1 gaps.length
  { complexity := segments.length
    dashGapQuotient := (dashes.length : ℚ) / nzOr1 gaps.length
    avgDashLength := avgDash / qOr1 totalLength
    avgGapLength := avgGap / qOr1 totalLength }

/-- `js/utils.ts` `chooseScale`: pick one of the three fixed scales from the analysis. -/
def chooseScale (analysis : AnalysisResult) : List ℚ :=
  if analysis.complexity ≤ 4 then SCALES .pentatonic
  else if 1 < analysis.dashGapQuotient then SCALES .major
  else SCALES .minor

/-- `js/utils.ts` `buildDashArray`: the optional currently-active (live)
segment, appended only when `liveDuration > 0 && liveType`. -/
def liveSegList (liveType : Option SegType) (liveDuration : ℚ) : List SegmentInput :=
  match liveType with
  | some t => if 0 < liveDuration then [SegmentInput.mk t liveDuration] else []
  | none => []

/-- `js/utils.ts` `buildDashArray`: convert recorded segments (plus an optional
live segment) into the emitted stroke-dasharray, modelled as the list of
numbers joined into the attribute string.  `circ` is `CIRCLE_CIRCUMFERENCE`
(the double closest to `2 * Math.PI * 60`), kept as a parameter since its
exact value never matters for the claims. -/
def buildDashArray (circ : ℚ) (segments : List SegmentInput) (liveType : Option SegType)
    (liveDuration : ℚ) (totalDurationMs : ℚ) : List ℚ :=
  if totalDurationMs ≤ 0 then [0, circ] else
  let scl := circ / totalDurationMs
  let all := segments ++ liveSegList liveType liveDuration
  if h : all = [] then [0, circ] else
  let lens := all.map (fun s => ((max 1 (jsRound (s.duration * scl)) : ℤ) : ℚ))
  if (all.head h).ty = .gap then 0 :: lens else lens

/-- `js/utils.ts` `mulberry32`: the per-call state increment `0x6d2b79f5`. -/
def mulberryDelta : ℕ := 0x6d2b79f5

/-- Truncation to a 32-bit residue (JavaScript `ToUint32` / `ToInt32` modulo `2^32`). -/
def toUint32 (n : ℕ) : ℕ := n % 2 ^ 32

/-- JavaScript `Math.imul` viewed on 32-bit residues. -/
def imul32 (a b : ℕ) : ℕ := toUint32 (a * b)

/-- The 32-bit integer output of one `mulberry32` call from the
already-incremented accumulator `s`: the body of the closure in
`js/utils.ts`, computed on 32-bit residues. -/
def mulberryOutNat (s : ℕ) : ℕ :=
  let t0 := toUint32 s
  let t1 := imul32 (t0 ^^^ (t0 >>> 15)) (t0 ||| 1)
  let t2 := t1 ^^^ toUint32 (t1 + imul32 (t1 ^^^ (t1 >>> 7)) (t1 ||| 61))
  t2 ^^^ (t2 >>> 14)

/-- One output of `mulberry32`: the 32-bit result scaled into `[0, 1)` by
`/ 4294967296`. -/
def mulberryOut (s : ℕ) : ℚ := (mulberryOutNat s : ℚ) / 2 ^ 32

/-- One call of the `mulberry32` closure: increment the accumulator, return the
new accumulator and the produced uniform value. -/
def mulberryNext (s : ℕ) : ℕ × ℚ := (s + mulberryDelta, mulberryOut (s + mulberryDelta))

/-- `js/audio.ts` `loopCircleAudio`: the jitter offset
`Math.floor((rng() - 0.5) * 2)` applied to the base scale index. -/
def jitterOffset (r : ℚ) : ℤ := ⌊(r - 1 / 2) * 2⌋

/-- `js/audio.ts` `scheduleOneRotation`: the pattern-aware base scale index
`Math.round((1 - normalizedLen) * (scale.length - 1))`. -/
def baseIndexOf (L : ℕ) (normalizedLen : ℚ) : ℤ :=
  jsRound ((1 - normalizedLen) * ((L : ℚ) - 1))

/-- `js/audio.ts` `scheduleOneRotation`: the chosen scale index for one dash
segment, given the scale length `L`, the segment's normalized length, and the
uniform draw `r` used for the jitter.  Mirrors the source: clamp
`baseIndex + jitterOffset` into `[0, L-1]`, then force the tonic for
relatively long dashes (`normalizedLen > 0.25`). -/
def noteIndexOf (L : ℕ) (normalizedLen r : ℚ) : ℤ :=
  let idx := max 0 (min ((L : ℤ) - 1) (baseIndexOf L normalizedLen + jitterOffset r))
  if 1 / 4 < normalizedLen then 0 else idx

/-- The claim's description of the chosen scale index (C2), written from the
spec's words for comparison with `noteIndexOf`: `clamp(round((1 -
segmentLength/totalLength) * (L - 1)) + j, 0, L - 1)`, except that an index of
`0` is forced when `segmentLength/totalLength > 0.25`. -/
def claimNoteIndex (L : ℕ) (normalizedLen : ℚ) (j : ℤ) : ℤ :=
  if 1 / 4 < normalizedLen then 0
  else min ((L : ℤ) - 1) (max 0 (baseIndexOf L normalizedLen + j))

/-- Exact representation of a scheduled frequency `mant * 2 ^ (tw / 12)`
(`tw` is the per-entity semitone transposition carried multiplicatively
through the pipeline; doubling or halving the frequency multiplies or divides
`mant` by `2`). -/
structure Freq where
  mant : ℚ
  tw : ℤ
deriving DecidableEq

/-- Twelfth power of the represented value: for `mant > 0`,
`(mant * 2 ^ (tw / 12)) ^ 12 = mant ^ 12 * 2 ^ tw`, a rational.  Comparisons
of the represented positive value with a positive rational bound `c` are
equivalent to comparisons of `val12` with `c ^ 12`. -/
def Freq.val12 (f : Freq) : ℚ := f.mant ^ 12 * (2 : ℚ) ^ f.tw

/-- The represented real frequency value in Hz. -/
noncomputable def Freq.val (f : Freq) : ℝ := (f.mant : ℝ) * (2 : ℝ) ^ ((f.tw : ℝ) / 12)

/-- Bounded linear search: the least `k` in `[start, start + fuel]` satisfying
`p`, or `start + fuel` if there is none.  Used to embed the source's `while`
loops: with a fuel at which `p` provably holds, `leastSat` returns exactly the
number of iterations the loop performs. -/
def leastSat (p : ℕ → Bool) : ℕ → ℕ → ℕ
| 0, start => start
| fuel + 1, start => if p start then start else leastSat p fuel (start + 1)

/-- Sufficient fuel for the doubling loop `while (freq < 40) freq *= 2`:
an exponent `B` with `2 ^ B ≥ 40 ^ 12 / val12`. -/
def foldUpFuel (f : Freq) : ℕ := (max 0 ⌈(40 : ℚ) ^ 12 / f.val12⌉).toNat

/-- Number of iterations of `while (freq < 40) freq *= 2` (`js/audio.ts`,
`scheduleOneRotation`), for a positive-valued frequency. -/
def foldUpSteps (f : Freq) : ℕ :=
  leastSat (fun k => !decide ((f.mant * 2 ^ k) ^ 12 * (2 : ℚ) ^ f.tw < 40 ^ 12)) (foldUpFuel f) 0

/-- Result of the doubling loop `while (freq < 40) freq *= 2`. -/
def foldUp (f : Freq) : Freq := ⟨f.mant * 2 ^ foldUpSteps f, f.tw⟩

/-- Sufficient fuel for the halving loop `while (freq > 5000) freq /= 2`. -/
def foldDownFuel (f : Freq) : ℕ := (max 0 ⌈f.val12 / (5000 : ℚ) ^ 12⌉).toNat

/-- Number of iterations of `while (freq > 5000) freq /= 2` (`js/audio.ts`,
`scheduleOneRotation`), for a positive-valued frequency. -/
def foldDownSteps (f : Freq) : ℕ :=
  leastSat (fun k => !decide ((5000 : ℚ) ^ 12 < (f.mant / 2 ^ k) ^ 12 * (2 : ℚ) ^ f.tw))
    (foldDownFuel f) 0

/-- Result of the halving loop `while (freq > 5000) freq /= 2`. -/
def foldDown (f : Freq) : Freq := ⟨f.mant / 2 ^ foldDownSteps f, f.tw⟩

/-- `js/audio.ts` `scheduleOneRotation`: the frequency safety net applied to
the candidate note frequency before `playRichTone` is called —
`if (!isFinite(freq) || freq <= 0) freq = 440;` followed by the two
octave-folding loops.  (A non-finite float has no exact-arithmetic
counterpart; the guard's exact content is the sign test.) -/
def sanitizeLoopFreq (f : Freq) : Freq :=
  foldDown (foldUp (if f.mant ≤ 0 then ⟨440, 0⟩ else f))

/-- `js/audio.ts` `minFilterFreq`: sample-rate-aware minimum filter frequency,
`Math.max(40, ((audioCtx && audioCtx.sampleRate) || 44100) * 0.001)`. -/
def minFilterFreq (sampleRate : ℚ) : ℚ := max 40 ((if sampleRate = 0 then 44100 else sampleRate) * (1 / 1000))

/-- The sanitized inputs actually used by `js/audio.ts` `playRichTone`. -/
structure SanitizedNoteInputs where
  panClamped : ℚ
  yFactorClamped : ℚ
  baseFreq : ℚ
  useDuration : ℚ
deriving DecidableEq

/-- `js/audio.ts` `playRichTone`: input sanitization — pan clamped to
`[-PAN_LIMIT, PAN_LIMIT]` with `PAN_LIMIT = 0.85`, brightness proxy clamped to
`[0, 1]`, base frequency clamped to `[40, 20000]`, and the scheduled duration
floored to `MIN_NOTE_DURATION_SEC`. -/
def sanitizeNoteInputs (freq pan duration yFactor : ℚ) : SanitizedNoteInputs :=
  { panClamped := max (-(17 / 20)) (min (17 / 20) pan)
    yFactorClamped := max 0 (min 1 yFactor)
    baseFreq := max 40 (min 20000 freq)
    useDuration := max duration MIN_NOTE_DURATION_SEC }

/-- `js/audio.ts` `playRichTone`: the intended low-pass cutoff
`500 + panClamped * 2000 + yFactorClamped * 3000` before flooring. -/
def rawFilterFreq (panClamped yFactorClamped : ℚ) : ℚ :=
  500 + panClamped * 2000 + yFactorClamped * 3000

/-- `js/audio.ts` `playRichTone`: the runtime sensitivity value
`__FILTER_COMPENSATION_SENSITIVITY`, clamped into `[0, 5]`. -/
def clampSensitivity (s : ℚ) : ℚ := max 0 (min 5 s)

/-- `js/audio.ts` `playRichTone`: the compensation factor as a function of the
fractional deficit `d`:
`COMP_MIN + Math.min(COMP_MAX - COMP_MIN, d * 1.8 * sensitivity)` with
`COMP_MIN = 1.0`, `COMP_MAX = 2.2`. -/
def compOfDeficit (sens d : ℚ) : ℚ := 1 + min (6 / 5) (d * (9 / 5) * clampSensitivity sens)

/-- `js/audio.ts` `playRichTone`: the factor by which the per-voice gain is
multiplied — the compensation factor of the fractional deficit
`(minF - rawFilterFreq) / max(minF, 1)` when the intended cutoff falls below
the floor, and `1` (no compensation) otherwise. -/
def compensationGainFactor (panClamped yFactorClamped sampleRate sens : ℚ) : ℚ :=
  let raw := rawFilterFreq panClamped yFactorClamped
  let minF := minFilterFreq sampleRate
  if raw < minF then compOfDeficit sens ((minF - raw) / max minF 1) else 1

/-- `js/state.ts` `ActiveOscillatorRecord`: an oscillator handle with its
optional per-voice gain node and computed base gain (audio nodes are
identified by opaque ids). -/
structure ActiveOscillatorRecord where
  osc : ℕ
  gain : Option ℕ
  baseGain : Option ℚ
deriving DecidableEq

/-- `js/state.ts` `CircleState`: the per-circle runtime state record. -/
structure CircleState where
  posx : ℚ
  posy : ℚ
  rngSeed : ℕ
  liveAudioNodes : Option (List ℕ)
  loopTimeout : Option ℤ
  activeOscillators : List ActiveOscillatorRecord
  segments : List SegmentInput
  holdDuration : Option ℚ
  scheduledUntil : Option ℚ
deriving DecidableEq

/-- The `WeakMap` entry for one circle: `none` when the circle has no state
entry.  (`loopTimeout = none` models both `null` and an absent field: the
source only ever tests `typeof st.loopTimeout === 'number'`.) -/
def CircleStore : Type := Option CircleState

/-- `js/state.ts` `getActiveOscillators`: `stateMap.get(circle)?.activeOscillators ?? []`. -/
def getActiveOscillators (s : CircleStore) : List ActiveOscillatorRecord :=
  s.elim [] (·.activeOscillators)

/-- `js/state.ts` `getLoopTimeout`: `stateMap.get(circle)?.loopTimeout`
(`none` for both a missing entry and a `null` field). -/
def getLoopTimeout (s : CircleStore) : Option ℤ := s.bind (·.loopTimeout)

/-- `js/state.ts` `getLiveAudioNodes`. -/
def getLiveAudioNodes (s : CircleStore) : Option (List ℕ) := s.bind (·.liveAudioNodes)

/-- `js/state.ts` `clearLoopTimeout`: a no-op on a missing entry; when the
stored handle is a number, `clearTimeout`/`clearInterval` it (both are
swallowed best-effort) and null the field. -/
def clearLoopTimeout (s : CircleStore) : CircleStore :=
  match s with
  | none => none
  | some st =>
    match st.loopTimeout with
    | some _ => some { st with loopTimeout := none }
    | none => some st

/-- `js/state.ts` `stopAndClearLiveAudioNodes`: a no-op when no live bundle is
recorded; otherwise stop/disconnect every node (best-effort) and null the
field. -/
def stopAndClearLiveAudioNodes (s : CircleStore) : CircleStore :=
  match s with
  | none => none
  | some st =>
    match st.liveAudioNodes with
    | some _ => some { st with liveAudioNodes := none }
    | none => some st

/-- `js/state.ts` `stopAndClearActiveOscillators`: a no-op when the record
list is missing or empty; otherwise stop/disconnect every oscillator
(best-effort) and reset the list to `[]`. -/
def stopAndClearActiveOscillators (s : CircleStore) : CircleStore :=
  match s with
  | none => none
  | some st =>
    if st.activeOscillators = [] then some st
    else some { st with activeOscillators := [] }

/-- `WeakMap.prototype.delete`: removes the entry whether or not it exists. -/
def weakMapDelete (_ : CircleStore) : CircleStore := none

/-- `js/state.ts` `deleteState`: clear the loop timer, stop live nodes, stop
active oscillators, then remove the state entry. -/
def deleteState (s : CircleStore) : CircleStore :=
  weakMapDelete (stopAndClearActiveOscillators (stopAndClearLiveAudioNodes (clearLoopTimeout s)))

/-- A scheduled note handed to `playRichTone`: frequency, absolute start time
(seconds on the audio clock) and duration (seconds). -/
abbrev Note := Freq × ℚ × ℚ

/-- The state threaded through one rotation of `js/audio.ts`
`scheduleOneRotation`: the time cursor `t`, the accumulated `mulberry32` seed
of the entity's generator, and the notes scheduled so far. -/
structure RotState where
  t : ℚ
  rng : ℕ
  notes : List Note
deriving DecidableEq

/-- One step of the segment loop in `js/audio.ts` `scheduleOneRotation`: a
dash segment of positive duration draws the jitter and the frequency
randomization from the entity's generator, picks the scale degree, builds the
candidate frequency `scale[noteIndex] * (0.995 + rng() * 0.01)` (on the
transposed scale, i.e. `mant = baseScale[noteIndex] * jitterFactor` and
`tw = transposeSemis`), sanitizes it, schedules the note at the cursor, and
(inside `playRichTone`) consumes one further draw per harmonic voice for the
detunes; every segment advances the cursor by its duration. -/
def scheduleSeg (rotationPeriod totalLength : ℚ) (tw : ℤ) (baseScale : List ℚ)
    (harmonics : ℕ) (st : RotState) (seg : SegmentLength) : RotState :=
  let dur := seg.length / totalLength * rotationPeriod
  if seg.ty = SegType.dash ∧ 0 < dur then
    let (s1, r1) := mulberryNext st.rng
    let (s2, r2) := mulberryNext s1
    let normalizedLen := seg.length / totalLength
    let idx := noteIndexOf baseScale.length normalizedLen r1
    let entry := baseScale.getD idx.toNat 0
    let cand : Freq := ⟨entry * (199 / 200 + r2 / 100), tw⟩
    let f := sanitizeLoopFreq cand
    ⟨st.t + dur, s2 + harmonics * mulberryDelta, st.notes ++ [(f, st.t, dur)]⟩
  else
    ⟨st.t + dur, st.rng, st.notes⟩

/-- `js/audio.ts` `scheduleOneRotation`: schedule all dash segments of one
rotation starting at `startTime`; the final cursor is the value persisted by
`setScheduledUntil`. -/
def scheduleOneRotation (rotationPeriod totalLength : ℚ) (tw : ℤ) (baseScale : List ℚ)
    (harmonics : ℕ) (startTime : ℚ) (rng0 : ℕ) (segs : List SegmentLength) : RotState :=
  segs.foldl (scheduleSeg rotationPeriod totalLength tw baseScale harmonics) ⟨startTime, rng0, []⟩

/-- `js/audio.ts` `loopCircleAudio`: the index-alternating conversion of the
parsed dash-array lengths into segments,
`dashArray.map((len, i) => ({ type: i % 2 === 0 ? 'dash' : 'gap', length: len }))`,
written with an explicit index accumulator. -/
def dashToSegs : ℕ → List ℚ → List SegmentLength
| _, [] => []
| i, len :: rest => SegmentLength.mk (if i % 2 = 0 then .dash else .gap) len :: dashToSegs (i + 1) rest

/-- The observable outcome of a `js/audio.ts` `loopCircleAudio` call that did
not take the degenerate early return: the computed rotation period, the notes
of the initial (first) rotation, the persisted `scheduledUntil` horizon, and
— by virtue of reaching the end of the function — an armed recurring
scheduler timer. -/
structure LoopSetup where
  rotationPeriod : ℚ
  notes : List Note
  scheduledUntil : ℚ
deriving DecidableEq

/-- `js/audio.ts` `loopCircleAudio`, from the already-parsed dash-array
lengths: `none` models the early `return` for an empty parsed dash array
(no note scheduled, no timer armed); `some` models the full setup, including
the initial `scheduleOneRotation(now + 0.02)` fill and the armed scheduler
timer.  `w` is `window.innerWidth`, `px` the stored x-position, `seed` the
accumulated state of the entity's `mulberry32` generator, `holdMs` the
resolved hold duration in milliseconds. -/
def loopCircleAudio (w : ℚ) (dashArray : List ℚ) (holdMs : ℚ) (px : ℚ) (seed : ℕ)
    (now : ℚ) : Option LoopSetup :=
  if dashArray = [] then none else
  let rotationPeriod := holdMs / 1000
  let totalLength := qOr1 dashArray.sum
  let segs := dashToSegs 0 dashArray
  let analysis := analyzeSegments segs totalLength
  let baseScale := chooseScale analysis
  let x := max 0 (min px w)
  let tw := jsRound ((x / w - 1 / 2) * 8)
  let harmonics := 1 + analysis.complexity / 3
  let init := scheduleOneRotation rotationPeriod totalLength tw baseScale harmonics (now + 1 / 50) seed segs
  some ⟨rotationPeriod, init.notes, init.t⟩

/-- Whether a `loopCircleAudio` call armed the recurring scheduler timer
(`window.setTimeout(schedulerTick, schedulerIntervalMs)` at the end of the
function, reached exactly when the early return was not taken). -/
def armsTimer (o : Option LoopSetup) : Bool := o.isSome

/-- The notes scheduled by a `loopCircleAudio` call (none on the early return). -/
def notesOf (o : Option LoopSetup) : List Note := o.elim [] (·.notes)

/-- The `while (scheduledUntil < horizon)` fill loop of `schedulerTick`
(`js/audio.ts`), run with explicit fuel: `none` means the loop had not
finished after `fuel` further iterations.  Each iteration advances the local
watermark by `rotationPeriod`. -/
def tickLoopFuel (rotationPeriod horizon : ℚ) : ℕ → ℚ → Option ℚ
| 0, su => if su < horizon then none else some su
| fuel + 1, su => if su < horizon then tickLoopFuel rotationPeriod horizon fuel (su + rotationPeriod) else some su

/-- Number of iterations of the `while (scheduledUntil < horizon)` fill loop
for a positive rotation period (the least `n` with
`su + n * rotationPeriod ≥ horizon`), and `0` for a non-positive period
(where the loop either runs forever or never runs — see `tickLoopFuel`). -/
def stepsNeeded (su horizon rotationPeriod : ℚ) : ℕ :=
  if 0 < rotationPeriod then
    leastSat (fun n => !decide (su + n * rotationPeriod < horizon))
      (max 0 ⌈(horizon - su) / rotationPeriod⌉).toNat 0
  else 0

/-- One execution of `schedulerTick` (`js/audio.ts`), for an entity whose
pattern has positive total length (so that each `scheduleOneRotation` call
persists `scheduledUntil = startTime + adv`; `adv` equals the rotation period
exactly when the segment lengths sum to the pattern's total length, see
`scheduleOneRotation_t`).  Inputs: the audio clock `current` at the tick and
the persisted watermark `stored`; outputs: the rotation start times scheduled
by this tick and the persisted watermark after the tick.  Mirrors the source:
a watermark below `current + 0.01` is restarted at `current + 0.02`, then
whole rotations are scheduled until the horizon `current + 0.1` is reached. -/
def tickOnce (rotationPeriod adv current stored : ℚ) : List ℚ × ℚ :=
  let su1 := if stored < current + 1 / 100 then current + 1 / 50 else stored
  let n := stepsNeeded su1 (current + LOOP_SCHEDULE_AHEAD_SEC) rotationPeriod
  ((List.range n).map (fun (k : ℕ) => su1 + (k : ℚ) * rotationPeriod),
    if n = 0 then stored else su1 + ((n : ℚ) - 1) * rotationPeriod + adv)

/-! ## Helper lemmas -/

theorem leastSat_eq_start {p : ℕ → Bool} {start : ℕ} (fuel : ℕ) (h : p start = true) :
    leastSat p fuel start = start := by
  cases fuel with
  | zero => rfl
  | succ n => simp [leastSat, h]

theorem leastSat_eq_of {p : ℕ → Bool} {fuel start n : ℕ} (hn : p (start + n) = true)
    (hmin : ∀ k, start ≤ k → k < start + n → p k = false) (hfuel : n ≤ fuel) :
    leastSat p fuel start = start + n := by
  induction fuel generalizing start n with
  | zero =>
    have : n = 0 := Nat.le_zero.mp hfuel
    subst this
    rfl
  | succ fuel ih =>
    cases hps : p start with
    | true =>
      have hn0 : n = 0 := by
        by_contra h0
        have := hmin start le_rfl (by omega)
        rw [hps] at this
        exact Bool.noConfusion this
      subst hn0
      simp [leastSat, hps]
    | false =>
      have hn0 : n ≠ 0 := by
        intro h0
        subst h0
        rw [Nat.add_zero] at hn
        rw [hps] at hn
        exact Bool.noConfusion hn
      obtain ⟨m, rfl⟩ : ∃ m, n = m + 1 := ⟨n - 1, by omega⟩
      have := @ih (start + 1) m (by rw [show start + 1 + m = start + (m + 1) by omega]; exact hn)
        (fun k hk1 hk2 => hmin k (by omega) (by omega)) (by omega)
      simp only [leastSat, hps, if_neg Bool.false_ne_true]
      omega

theorem leastSat_pred {p : ℕ → Bool} {fuel start : ℕ} (h : p (start + fuel) = true) :
    p (leastSat p fuel start) = true := by
  induction fuel generalizing start with
  | zero => exact h
  | succ fuel ih =>
    cases hps : p start with
    | true => rwa [leastSat_eq_start _ hps]
    | false =>
      simp only [leastSat, hps, if_neg Bool.false_ne_true]
      exact ih (by rw [show start + 1 + fuel = start + (fuel + 1) by omega]; exact h)

theorem leastSat_min {p : ℕ → Bool} {fuel start : ℕ} (j : ℕ) (hj1 : start ≤ j)
    (hj2 : j < leastSat p fuel start) : p j = false := by
  induction fuel generalizing start with
  | zero =>
    exact absurd (lt_of_le_of_lt hj1 hj2) (lt_irrefl start)
  | succ fuel ih =>
    cases hps : p start with
    | true =>
      rw [leastSat_eq_start _ hps] at hj2
      exact absurd (lt_of_le_of_lt hj1 hj2) (lt_irrefl start)
    | false =>
      simp only [leastSat, hps, if_neg Bool.false_ne_true] at hj2
      rcases Nat.eq_or_lt_of_le hj1 with rfl | hlt
      · exact hps
      · exact ih hlt hj2

theorem stepsNeeded_fuel_big {su horizon p : ℚ} (hp : 0 < p) :
    horizon ≤ su + ((max 0 ⌈(horizon - su) / p⌉).toNat : ℚ) * p := by
  set x : ℚ := (horizon - su) / p with hx
  have h1 : ((max 0 ⌈x⌉ : ℤ) : ℚ) = ((max 0 ⌈x⌉).toNat : ℚ) := by
    have := Int.toNat_of_nonneg (le_max_left 0 ⌈x⌉)
    exact_mod_cast this.symm
  have h2 : x ≤ ((max 0 ⌈x⌉ : ℤ) : ℚ) := by
    calc x ≤ (⌈x⌉ : ℚ) := Int.le_ceil x
    _ ≤ ((max 0 ⌈x⌉ : ℤ) : ℚ) := by exact_mod_cast le_max_right 0 ⌈x⌉
  have h3 : x * p ≤ ((max 0 ⌈x⌉).toNat : ℚ) * p := by
    rw [← h1]
    exact mul_le_mul_of_nonneg_right h2 (le_of_lt hp)
  have h4 : x * p = horizon - su := div_mul_cancel₀ _ (ne_of_gt hp)
  linarith

theorem stepsNeeded_spec {su horizon p : ℚ} (hp : 0 < p) :
    horizon ≤ su + (stepsNeeded su horizon p : ℚ) * p := by
  rw [stepsNeeded, if_pos hp]
  have h := @leastSat_pred (fun n => !decide (su + n * p < horizon))
    ((max 0 ⌈(horizon - su) / p⌉).toNat) 0 ?pfuel
  case pfuel =>
    simp only [Bool.not_eq_true', decide_eq_false_iff_not, not_lt, Nat.zero_add]
    exact stepsNeeded_fuel_big hp
  simp only [Bool.not_eq_true', decide_eq_false_iff_not, not_lt] at h
  exact h

theorem stepsNeeded_min {su horizon p : ℚ} (hp : 0 < p) (k : ℕ)
    (hk : k < stepsNeeded su horizon p) : su + (k : ℚ) * p < horizon := by
  rw [stepsNeeded, if_pos hp] at hk
  have h := leastSat_min (p := fun n => !decide (su + n * p < horizon)) k (Nat.zero_le k) hk
  simpa only [Bool.not_eq_false', decide_eq_true_eq] using h

theorem stepsNeeded_eq_of {su horizon p : ℚ} {n : ℕ} (hp : 0 < p)
    (hn : horizon ≤ su + (n : ℚ) * p) (hmin : ∀ k : ℕ, k < n → su + (k : ℚ) * p < horizon) :
    stepsNeeded su horizon p = n := by
  rw [stepsNeeded, if_pos hp]
  have hfuel : n ≤ (max 0 ⌈(horizon - su) / p⌉).toNat := by
    rcases Nat.eq_zero_or_pos n with rfl | hpos
    · exact Nat.zero_le _
    · have hlt : su + ((n : ℚ) - 1) * p < horizon := by
        have := hmin (n - 1) (by omega)
        have hc : ((n - 1 : ℕ) : ℚ) = (n : ℚ) - 1 := by
          push_cast [Nat.cast_sub hpos]
          ring
        rwa [hc] at this
      have hx : ((n : ℚ) - 1) < (horizon - su) / p := by
        rw [lt_div_iff₀ hp]
        linarith
      have hceil : ((n : ℤ) - 1) < ⌈(horizon - su) / p⌉ := by
        rw [Int.lt_ceil]
        exact_mod_cast hx
      have : (n : ℤ) ≤ max 0 ⌈(horizon - su) / p⌉ := le_trans (by omega) (le_max_right _ _)
      omega
  have := @leastSat_eq_of (fun m => !decide (su + m * p < horizon))
    ((max 0 ⌈(horizon - su) / p⌉).toNat) 0 n ?hn ?hmin hfuel
  · simpa using this
  case hn =>
    simp only [Bool.not_eq_true', decide_eq_false_iff_not, not_lt, Nat.zero_add]
    exact hn
  case hmin =>
    intro k _ hk2
    simp only [Bool.not_eq_false', decide_eq_true_eq]
    exact hmin k (by omega)

theorem ceil_toNat_ge (x : ℚ) : x ≤ ((max 0 ⌈x⌉).toNat : ℚ) := by
  have h1 : ((max 0 ⌈x⌉).toNat : ℤ) = max 0 ⌈x⌉ := Int.toNat_of_nonneg (le_max_left 0 ⌈x⌉)
  have h2 : x ≤ ((max 0 ⌈x⌉ : ℤ) : ℚ) :=
    le_trans (Int.le_ceil x) (by exact_mod_cast le_max_right 0 ⌈x⌉)
  calc x ≤ ((max 0 ⌈x⌉ : ℤ) : ℚ) := h2
  _ = ((max 0 ⌈x⌉).toNat : ℚ) := by exact_mod_cast h1.symm

theorem nat_lt_two_pow_q (B : ℕ) : (B : ℚ) < (2 : ℚ) ^ B := by
  have := Nat.lt_two_pow B
  exact_mod_cast this

theorem two_pow_le_two_pow_twelve (B : ℕ) : (2 : ℚ) ^ B ≤ (2 : ℚ) ^ (12 * B) := by
  exact pow_le_pow_right₀ one_le_two (by omega)

theorem mant_pow_mul_zpow_pos {m : ℚ} (hm : 0 < m) (t : ℤ) : 0 < m ^ 12 * (2 : ℚ) ^ t :=
  mul_pos (pow_pos hm 12) (zpow_pos (by norm_num) t)

theorem foldUpSteps_spec {f : Freq} (hm : 0 < f.mant) :
    (40 : ℚ) ^ 12 ≤ (f.mant * 2 ^ foldUpSteps f) ^ 12 * (2 : ℚ) ^ f.tw := by
  have hv : 0 < f.val12 := mant_pow_mul_zpow_pos hm f.tw
  have hfuel : ¬ ((f.mant * 2 ^ foldUpFuel f) ^ 12 * (2 : ℚ) ^ f.tw < 40 ^ 12) := by
    push_neg
    set B := foldUpFuel f with hB
    have hx : (40 : ℚ) ^ 12 / f.val12 ≤ (B : ℚ) := ceil_toNat_ge _
    have h2B : (40 : ℚ) ^ 12 / f.val12 ≤ (2 : ℚ) ^ (12 * B) :=
      le_trans hx (le_trans (le_of_lt (nat_lt_two_pow_q B)) (two_pow_le_two_pow_twelve B))
    have hval : (f.mant * 2 ^ B) ^ 12 * (2 : ℚ) ^ f.tw = f.val12 * (2 : ℚ) ^ (12 * B) := by
      rw [Freq.val12, mul_pow, ← pow_mul]
      ring
    rw [hval]
    calc (40 : ℚ) ^ 12 = f.val12 * ((40 : ℚ) ^ 12 / f.val12) := by
          field_simp
    _ ≤ f.val12 * (2 : ℚ) ^ (12 * B) := mul_le_mul_of_nonneg_left h2B (le_of_lt hv)
  have h := @leastSat_pred (fun k => !decide ((f.mant * 2 ^ k) ^ 12 * (2 : ℚ) ^ f.tw < 40 ^ 12))
    (foldUpFuel f) 0 (by
      simp only [Bool.not_eq_true', decide_eq_false_iff_not, Nat.zero_add]
      exact hfuel)
  simp only [Bool.not_eq_true', decide_eq_false_iff_not, not_lt] at h
  exact h

theorem foldUpSteps_min {f : Freq} (k : ℕ) (hk : k < foldUpSteps f) :
    (f.mant * 2 ^ k) ^ 12 * (2 : ℚ) ^ f.tw < 40 ^ 12 := by
  have h := leastSat_min (p := fun j => !decide ((f.mant * 2 ^ j) ^ 12 * (2 : ℚ) ^ f.tw < 40 ^ 12))
    k (Nat.zero_le k) hk
  simpa only [Bool.not_eq_false', decide_eq_true_eq] using h

theorem foldDownSteps_spec {f : Freq} (hm : 0 < f.mant) :
    (f.mant / 2 ^ foldDownSteps f) ^ 12 * (2 : ℚ) ^ f.tw ≤ (5000 : ℚ) ^ 12 := by
  have hv : 0 < f.val12 := mant_pow_mul_zpow_pos hm f.tw
  have hfuel : ¬ ((5000 : ℚ) ^ 12 < (f.mant / 2 ^ foldDownFuel f) ^ 12 * (2 : ℚ) ^ f.tw) := by
    push_neg
    set B := foldDownFuel f with hB
    have hx : f.val12 / (5000 : ℚ) ^ 12 ≤ (B : ℚ) := ceil_toNat_ge _
    have h2B : f.val12 / (5000 : ℚ) ^ 12 ≤ (2 : ℚ) ^ (12 * B) :=
      le_trans hx (le_trans (le_of_lt (nat_lt_two_pow_q B)) (two_pow_le_two_pow_twelve B))
    have hval : (f.mant / 2 ^ B) ^ 12 * (2 : ℚ) ^ f.tw = f.val12 / (2 : ℚ) ^ (12 * B) := by
      rw [Freq.val12, div_pow, ← pow_mul]
      ring
    rw [hval]
    rw [div_le_iff₀ (by positivity)]
    rw [div_le_iff₀ (by norm_num : (0:ℚ) < 5000 ^ 12)] at h2B
    linarith
  have h := @leastSat_pred
    (fun j => !decide ((5000 : ℚ) ^ 12 < (f.mant / 2 ^ j) ^ 12 * (2 : ℚ) ^ f.tw))
    (foldDownFuel f) 0 (by
      simp only [Bool.not_eq_true', decide_eq_false_iff_not, Nat.zero_add]
      exact hfuel)
  simp only [Bool.not_eq_true', decide_eq_false_iff_not, not_lt] at h
  exact h

theorem foldDownSteps_min {f : Freq} (k : ℕ) (hk : k < foldDownSteps f) :
    (5000 : ℚ) ^ 12 < (f.mant / 2 ^ k) ^ 12 * (2 : ℚ) ^ f.tw := by
  have h := leastSat_min
    (p := fun j => !decide ((5000 : ℚ) ^ 12 < (f.mant / 2 ^ j) ^ 12 * (2 : ℚ) ^ f.tw))
    k (Nat.zero_le k) hk
  simpa only [Bool.not_eq_false', decide_eq_true_eq] using h

theorem sanitizeLoopFreq_val12_bounds (f : Freq) :
    0 < (sanitizeLoopFreq f).mant ∧
    (40 : ℚ) ^ 12 ≤ (sanitizeLoopFreq f).val12 ∧
    (sanitizeLoopFreq f).val12 ≤ (5000 : ℚ) ^ 12 := by
  set g : Freq := if f.mant ≤ 0 then ⟨440, 0⟩ else f with hgdef
  have hg : 0 < g.mant := by
    rw [hgdef]
    split
    · norm_num
    · next h => exact lt_of_not_le h
  set u : Freq := foldUp g with hu
  have hum : 0 < u.mant := by
    rw [hu, foldUp]
    exact mul_pos hg (by positivity)
  have hulo : (40 : ℚ) ^ 12 ≤ u.val12 := by
    rw [hu, foldUp, Freq.val12]
    exact foldUpSteps_spec hg
  have hres : sanitizeLoopFreq f = foldDown u := by
    rw [sanitizeLoopFreq, hu, hgdef]
  have hmant : 0 < (foldDown u).mant := by
    rw [foldDown]
    exact div_pos hum (by positivity)
  have hhi : (foldDown u).val12 ≤ (5000 : ℚ) ^ 12 := by
    rw [foldDown, Freq.val12]
    exact foldDownSteps_spec hum
  have hlo : (40 : ℚ) ^ 12 ≤ (foldDown u).val12 := by
    rcases Nat.eq_zero_or_pos (foldDownSteps u) with hz | hpos
    · rw [foldDown, Freq.val12, hz]
      simpa using hulo
    · obtain ⟨k, hk⟩ : ∃ k, foldDownSteps u = k + 1 := ⟨foldDownSteps u - 1, by omega⟩
      have hstep := foldDownSteps_min (f := u) k (by omega)
      have hval : (foldDown u).val12 = (u.mant / 2 ^ k) ^ 12 * (2 : ℚ) ^ u.tw / 2 ^ 12 := by
        rw [foldDown, Freq.val12, hk]
        have : u.mant / 2 ^ (k + 1) = u.mant / 2 ^ k / 2 := by
          rw [pow_succ]
          ring
        rw [this, div_pow]
        ring
      rw [hval]
      have h2500 : ((5000 : ℚ) ^ 12) / 2 ^ 12 = 2500 ^ 12 := by
        norm_num
      calc (40 : ℚ) ^ 12 ≤ 2500 ^ 12 := by norm_num
      _ = (5000 : ℚ) ^ 12 / 2 ^ 12 := h2500.symm
      _ ≤ (u.mant / 2 ^ k) ^ 12 * (2 : ℚ) ^ u.tw / 2 ^ 12 := by
          gcongr
  rw [hres]
  exact ⟨hmant, hlo, hhi⟩

theorem Freq.val_pos {f : Freq} (hm : 0 < f.mant) : 0 < f.val := by
  rw [Freq.val]
  have h : (0 : ℝ) < (f.mant : ℝ) := by exact_mod_cast hm
  exact mul_pos h (Real.rpow_pos_of_pos (by norm_num) _)

theorem Freq.val_pow_twelve (f : Freq) : f.val ^ (12 : ℕ) = ((f.val12 : ℚ) : ℝ) := by
  rw [Freq.val, Freq.val12, mul_pow]
  have h1 : ((2 : ℝ) ^ ((f.tw : ℝ) / 12)) ^ (12 : ℕ) = (2 : ℝ) ^ (f.tw : ℝ) := by
    rw [← Real.rpow_natCast ((2 : ℝ) ^ ((f.tw : ℝ) / 12)) 12,
      ← Real.rpow_mul (by norm_num : (0:ℝ) ≤ 2)]
    norm_num
  rw [h1, Real.rpow_intCast]
  push_cast
  ring

theorem Freq.val_ge_forty {f : Freq} (hm : 0 < f.mant) (h : (40 : ℚ) ^ 12 ≤ f.val12) :
    (40 : ℝ) ≤ f.val := by
  have hvp : 0 < f.val := Freq.val_pos hm
  have h12 : (40 : ℝ) ^ (12 : ℕ) ≤ f.val ^ (12 : ℕ) := by
    rw [Freq.val_pow_twelve]
    exact_mod_cast h
  exact le_of_pow_le_pow_left₀ (by norm_num) (le_of_lt hvp) h12

theorem Freq.val_le_fivethousand {f : Freq} (h : f.val12 ≤ (5000 : ℚ) ^ 12) :
    f.val ≤ 5000 := by
  have h12 : f.val ^ (12 : ℕ) ≤ (5000 : ℝ) ^ (12 : ℕ) := by
    rw [Freq.val_pow_twelve]
    exact_mod_cast h
  exact le_of_pow_le_pow_left₀ (by norm_num) (by norm_num) h12

theorem Freq.val_lt_of_tw_lt {m : ℚ} (hm : 0 < m) {s t : ℤ} (hst : s < t) :
    Freq.val ⟨m, s⟩ < Freq.val ⟨m, t⟩ := by
  rw [Freq.val, Freq.val]
  apply mul_lt_mul_of_pos_left _ (by exact_mod_cast hm)
  apply Real.rpow_lt_rpow_of_exponent_lt (by norm_num)
  have h : (s : ℝ) < (t : ℝ) := by exact_mod_cast hst
  linarith

theorem mulberryOut_nonneg (s : ℕ) : 0 ≤ mulberryOut s := by
  rw [mulberryOut]
  positivity

theorem mulberryOutNat_lt (s : ℕ) : mulberryOutNat s < 2 ^ 32 := by
  rw [mulberryOutNat]
  have ht1 : imul32 (toUint32 s ^^^ (toUint32 s >>> 15)) (toUint32 s ||| 1) < 2 ^ 32 :=
    Nat.mod_lt _ (by norm_num)
  set t1 := imul32 (toUint32 s ^^^ (toUint32 s >>> 15)) (toUint32 s ||| 1) with ht1def
  have htu : toUint32 (t1 + imul32 (t1 ^^^ (t1 >>> 7)) (t1 ||| 61)) < 2 ^ 32 :=
    Nat.mod_lt _ (by norm_num)
  have ht2 : t1 ^^^ toUint32 (t1 + imul32 (t1 ^^^ (t1 >>> 7)) (t1 ||| 61)) < 2 ^ 32 :=
    Nat.xor_lt_two_pow ht1 htu
  set t2 := t1 ^^^ toUint32 (t1 + imul32 (t1 ^^^ (t1 >>> 7)) (t1 ||| 61)) with ht2def
  have hsle : t2 >>> 14 ≤ t2 := by
    rw [Nat.shiftRight_eq_div_pow]
    exact Nat.div_le_self t2 (2 ^ 14)
  have hshift : t2 >>> 14 < 2 ^ 32 := lt_of_le_of_lt hsle ht2
  exact Nat.xor_lt_two_pow ht2 hshift

theorem mulberryOut_lt_one (s : ℕ) : mulberryOut s < 1 := by
  rw [mulberryOut, div_lt_one (by norm_num)]
  exact_mod_cast mulberryOutNat_lt s

theorem scheduleSeg_t (rotationPeriod totalLength : ℚ) (tw : ℤ) (baseScale : List ℚ)
    (harmonics : ℕ) (st : RotState) (seg : SegmentLength) :
    (scheduleSeg rotationPeriod totalLength tw baseScale harmonics st seg).t =
      st.t + seg.length / totalLength * rotationPeriod := by
  rw [scheduleSeg]
  split
  · rfl
  · rfl

theorem scheduleSeg_notes_of_skip (rotationPeriod totalLength : ℚ) (tw : ℤ)
    (baseScale : List ℚ) (harmonics : ℕ) (st : RotState) (seg : SegmentLength)
    (h : ¬ (seg.ty = SegType.dash ∧ 0 < seg.length / totalLength * rotationPeriod)) :
    (scheduleSeg rotationPeriod totalLength tw baseScale harmonics st seg).notes = st.notes := by
  rw [scheduleSeg, if_neg h]

theorem foldl_scheduleSeg_t (rotationPeriod totalLength : ℚ) (tw : ℤ) (baseScale : List ℚ)
    (harmonics : ℕ) (segs : List SegmentLength) (st : RotState) :
    (segs.foldl (scheduleSeg rotationPeriod totalLength tw baseScale harmonics) st).t =
      st.t + (segs.map (fun s => s.length / totalLength * rotationPeriod)).sum := by
  induction segs generalizing st with
  | nil => simp
  | cons a l ih =>
    rw [List.foldl_cons, ih, scheduleSeg_t]
    simp
    ring

theorem scheduleOneRotation_t (rotationPeriod totalLength : ℚ) (tw : ℤ) (baseScale : List ℚ)
    (harmonics : ℕ) (startTime : ℚ) (rng0 : ℕ) (segs : List SegmentLength) :
    (scheduleOneRotation rotationPeriod totalLength tw baseScale harmonics startTime rng0 segs).t =
      startTime + (segs.map (fun s => s.length / totalLength * rotationPeriod)).sum := by
  rw [scheduleOneRotation, foldl_scheduleSeg_t]

theorem foldl_scheduleSeg_notes_nil (rotationPeriod totalLength : ℚ) (tw : ℤ)
    (baseScale : List ℚ) (harmonics : ℕ) (segs : List SegmentLength) (st : RotState)
    (h : ∀ seg ∈ segs, ¬ (seg.ty = SegType.dash ∧ 0 < seg.length / totalLength * rotationPeriod)) :
    (segs.foldl (scheduleSeg rotationPeriod totalLength tw baseScale harmonics) st).notes =
      st.notes := by
  induction segs generalizing st with
  | nil => rfl
  | cons a l ih =>
    rw [List.foldl_cons, ih _ (fun seg hs => h seg (List.mem_cons_of_mem a hs)),
      scheduleSeg_notes_of_skip _ _ _ _ _ _ _ (h a (List.mem_cons_self a l))]

theorem dashToSegs_length_mem (i : ℕ) (lens : List ℚ) (seg : SegmentLength)
    (h : seg ∈ dashToSegs i lens) : seg.length ∈ lens := by
  induction lens generalizing i with
  | nil => cases h
  | cons a l ih =>
    rw [dashToSegs] at h
    rcases List.mem_cons.mp h with rfl | h2
    · exact List.mem_cons_self a l
    · exact List.mem_cons_of_mem a (ih (i + 1) h2)

/-! ## Claim theorems -/

/-- C9: Scale selection is a pure function of the analysis result: for every
analysis, the sparse/pentatonic scale is returned exactly when
`complexity ≤ 4`; otherwise the major-leaning scale is returned when the
dash/gap count ratio is strictly greater than 1, and the minor-leaning scale
otherwise. -/
theorem C9_chooseScale_pure (a : AnalysisResult) :
    (a.complexity ≤ 4 → chooseScale a = SCALES .pentatonic) ∧
    (¬ a.complexity ≤ 4 → 1 < a.dashGapQuotient → chooseScale a = SCALES .major) ∧
    (¬ a.complexity ≤ 4 → ¬ 1 < a.dashGapQuotient → chooseScale a = SCALES .minor) := by
  refine ⟨fun h => ?_, fun h1 h2 => ?_, fun h1 h2 => ?_⟩
  · rw [chooseScale, if_pos h]
  · rw [chooseScale, if_neg h1, if_pos h2]
  · rw [chooseScale, if_neg h1, if_neg h2]

/-- Witness for C9 at a concrete analysis (complexity 1). -/
theorem C9_witness : chooseScale ⟨1, 0, 0, 0⟩ = SCALES .pentatonic :=
  (C9_chooseScale_pure ⟨1, 0, 0, 0⟩).1 (by norm_num)

/-- C6: For every call to the note-rendering operation `playRichTone`, the
inputs it actually uses are sanitized: the base frequency is clamped into
`[40, 20000]` Hz, the pan into `[-0.85, 0.85]`, the brightness proxy into
`[0, 1]`, and the effective duration is floored to
`MIN_NOTE_DURATION_SEC = 0.04` s (and never falls below the requested
duration). -/
theorem C6_playRichTone_sanitized (freq pan duration yFactor : ℚ) :
    40 ≤ (sanitizeNoteInputs freq pan duration yFactor).baseFreq ∧
    (sanitizeNoteInputs freq pan duration yFactor).baseFreq ≤ 20000 ∧
    -(17 / 20) ≤ (sanitizeNoteInputs freq pan duration yFactor).panClamped ∧
    (sanitizeNoteInputs freq pan duration yFactor).panClamped ≤ 17 / 20 ∧
    0 ≤ (sanitizeNoteInputs freq pan duration yFactor).yFactorClamped ∧
    (sanitizeNoteInputs freq pan duration yFactor).yFactorClamped ≤ 1 ∧
    MIN_NOTE_DURATION_SEC ≤ (sanitizeNoteInputs freq pan duration yFactor).useDuration ∧
    duration ≤ (sanitizeNoteInputs freq pan duration yFactor).useDuration ∧
    MIN_NOTE_DURATION_SEC = 1 / 25 := by
  rw [sanitizeNoteInputs]
  refine ⟨le_max_left _ _, max_le (by norm_num) (min_le_left _ _),
    le_max_left _ _, max_le (by norm_num) (min_le_left _ _),
    le_max_left _ _, max_le (by norm_num) (min_le_left _ _),
    le_max_right _ _, le_max_left _ _, rfl⟩

/-- C5: The per-entity teardown `deleteState` is idempotent and total: a
second call on the already-cleaned store changes nothing, and after a call
the store reports zero active oscillators, no loop-timer handle and no live
audio nodes. -/
theorem C5_deleteState_idempotent (s : CircleStore) :
    deleteState (deleteState s) = deleteState s ∧
    getActiveOscillators (deleteState s) = [] ∧
    getLoopTimeout (deleteState s) = none ∧
    getLiveAudioNodes (deleteState s) = none :=
  ⟨rfl, rfl, rfl, rfl⟩

/-- C7: Whenever the intended low-pass cutoff falls below the sample-rate-aware
floor, the per-voice gain is multiplied by a compensation factor lying in
`[1, 2.2]` for every pan/brightness input and every runtime sensitivity; when
no flooring occurs, the factor is exactly 1; and the factor is a Lipschitz
(hence continuous) function of the fractional deficit, with constant 9. -/
theorem C7_compensation_bounded (panClamped yFactorClamped sampleRate sens d1 d2 : ℚ) :
    (rawFilterFreq panClamped yFactorClamped < minFilterFreq sampleRate →
      1 ≤ compensationGainFactor panClamped yFactorClamped sampleRate sens ∧
      compensationGainFactor panClamped yFactorClamped sampleRate sens ≤ 11 / 5) ∧
    (¬ rawFilterFreq panClamped yFactorClamped < minFilterFreq sampleRate →
      compensationGainFactor panClamped yFactorClamped sampleRate sens = 1) ∧
    |compOfDeficit sens d1 - compOfDeficit sens d2| ≤ 9 * |d1 - d2| := by
  have hsens0 : 0 ≤ clampSensitivity sens := le_max_left 0 _
  have hsens5 : clampSensitivity sens ≤ 5 := max_le (by norm_num) (min_le_left _ _)
  refine ⟨fun hfloor => ?_, fun hnofloor => ?_, ?_⟩
  · rw [compensationGainFactor, if_pos hfloor, compOfDeficit]
    have hminF : 40 ≤ minFilterFreq sampleRate := le_max_left _ _
    have hmax : max (minFilterFreq sampleRate) 1 = minFilterFreq sampleRate :=
      max_eq_left (by linarith)
    have hd : 0 ≤ (minFilterFreq sampleRate - rawFilterFreq panClamped yFactorClamped) /
        max (minFilterFreq sampleRate) 1 := by
      apply div_nonneg (by linarith)
      rw [hmax]
      linarith
    constructor
    · have : 0 ≤ min (6 / 5 : ℚ)
          ((minFilterFreq sampleRate - rawFilterFreq panClamped yFactorClamped) /
            max (minFilterFreq sampleRate) 1 * (9 / 5) * clampSensitivity sens) :=
        le_min (by norm_num) (by positivity)
      linarith
    · have : min (6 / 5 : ℚ)
          ((minFilterFreq sampleRate - rawFilterFreq panClamped yFactorClamped) /
            max (minFilterFreq sampleRate) 1 * (9 / 5) * clampSensitivity sens) ≤ 6 / 5 :=
        min_le_left _ _
      linarith
  · rw [compensationGainFactor, if_neg hnofloor]
  · rw [compOfDeficit, compOfDeficit]
    have h1 : (1 : ℚ) + min (6 / 5) (d1 * (9 / 5) * clampSensitivity sens) -
        (1 + min (6 / 5) (d2 * (9 / 5) * clampSensitivity sens)) =
        min (6 / 5) (d1 * (9 / 5) * clampSensitivity sens) -
        min (6 / 5) (d2 * (9 / 5) * clampSensitivity sens) := by ring
    rw [h1]
    have h2 : |min (6 / 5 : ℚ) (d1 * (9 / 5) * clampSensitivity sens) -
        min (6 / 5) (d2 * (9 / 5) * clampSensitivity sens)| ≤
        |d1 * (9 / 5) * clampSensitivity sens - d2 * (9 / 5) * clampSensitivity sens| := by
      have := abs_min_sub_min_le_max (6 / 5 : ℚ) (d1 * (9 / 5) * clampSensitivity sens)
        (6 / 5) (d2 * (9 / 5) * clampSensitivity sens)
      simpa using this
    have h3 : |d1 * (9 / 5) * clampSensitivity sens - d2 * (9 / 5) * clampSensitivity sens| =
        (9 / 5) * clampSensitivity sens * |d1 - d2| := by
      rw [show d1 * (9 / 5) * clampSensitivity sens - d2 * (9 / 5) * clampSensitivity sens =
        (9 / 5) * clampSensitivity sens * (d1 - d2) by ring]
      rw [abs_mul]
      congr 1
      rw [abs_of_nonneg (by positivity)]
    have h4 : (9 / 5) * clampSensitivity sens * |d1 - d2| ≤ 9 * |d1 - d2| := by
      apply mul_le_mul_of_nonneg_right _ (abs_nonneg _)
      linarith
    calc |min (6 / 5 : ℚ) (d1 * (9 / 5) * clampSensitivity sens) -
        min (6 / 5) (d2 * (9 / 5) * clampSensitivity sens)| ≤
        |d1 * (9 / 5) * clampSensitivity sens - d2 * (9 / 5) * clampSensitivity sens| := h2
    _ = (9 / 5) * clampSensitivity sens * |d1 - d2| := h3
    _ ≤ 9 * |d1 - d2| := h4

/-- Witness for C7 at a concrete flooring input: hard-left pan, zero
brightness, 44.1 kHz, sensitivity 1 (intended cutoff −1200 Hz, floor 44.1 Hz). -/
theorem C7_witness :
    1 ≤ compensationGainFactor (-(17 / 20)) 0 44100 1 ∧
    compensationGainFactor (-(17 / 20)) 0 44100 1 ≤ 11 / 5 :=
  (C7_compensation_bounded (-(17 / 20)) 0 44100 1 0 0).1 (by
    rw [rawFilterFreq, minFilterFreq]
    rw [if_neg (by norm_num : (44100 : ℚ) ≠ 0)]
    rw [max_eq_right (by norm_num : (40 : ℚ) ≤ 44100 * (1 / 1000))]
    norm_num)

/-- C2: For every dash segment scheduled within a rotation over a scale of
length `L`, the chosen scale index equals
`clamp(round((1 - segmentLength/totalLength) * (L-1)) + j, 0, L-1)` for a
one-step jitter `j ∈ {-1, 0, +1}` computed from the entity's seeded
generator's draw (the draw lies in `[0, 1)`, and the jitter actually only
takes the values −1 and 0), except that the index is forced to `0` (the
tonic) whenever `segmentLength/totalLength > 0.25`; in particular a single
full-length dash segment always yields the tonic, and its pattern (complexity
1) selects the sparse/pentatonic scale. -/
theorem C2_note_index_formula (L : ℕ) (l T r : ℚ) (hL : 1 ≤ L) (hr0 : 0 ≤ r) (hr1 : r < 1)
    (hl : l ≠ 0) :
    (jitterOffset r = -1 ∨ jitterOffset r = 0 ∨ jitterOffset r = 1) ∧
    noteIndexOf L (l / T) r = claimNoteIndex L (l / T) (jitterOffset r) ∧
    (∀ s : ℕ, 0 ≤ mulberryOut s ∧ mulberryOut s < 1) ∧
    noteIndexOf L (l / l) r = 0 ∧
    chooseScale (analyzeSegments [⟨SegType.dash, l⟩] l) = SCALES .pentatonic := by
  have hj1 : (-1 : ℤ) ≤ jitterOffset r := by
    rw [jitterOffset, Int.le_floor]
    push_cast
    linarith
  have hj2 : jitterOffset r < 1 := by
    rw [jitterOffset, Int.floor_lt]
    push_cast
    linarith
  refine ⟨by omega, ?_, fun s => ⟨mulberryOut_nonneg s, mulberryOut_lt_one s⟩, ?_, ?_⟩
  · rw [noteIndexOf, claimNoteIndex]
    split
    · rfl
    · have hL1 : (0 : ℤ) ≤ (L : ℤ) - 1 := by
        have : (1 : ℤ) ≤ (L : ℤ) := by exact_mod_cast hL
        omega
      rw [max_min_distrib_left, max_eq_right hL1]
  · rw [div_self hl, noteIndexOf, if_pos (by norm_num : (1 : ℚ) / 4 < 1)]
  · rw [analyzeSegments, chooseScale]
    norm_num

/-- Witness for C2 at a concrete input: scale length 5, a single 300-unit dash
segment, draw 0. -/
theorem C2_witness :
    jitterOffset 0 = -1 ∨ jitterOffset 0 = 0 ∨ jitterOffset 0 = 1 :=
  (C2_note_index_formula 5 300 300 0 (by norm_num) le_rfl (by norm_num) (by norm_num)).1

/-- C10 (implicit safety): the scale-lookup index chosen by the loop scheduler
is clamped into `[0, L-1]` for every non-empty scale, all three fixed scales
have at least 5 entries (as does every scale `chooseScale` can return), and
the frequency handed to the note-rendering routine after the replacement of
non-positive candidates by 440 Hz and the two (always terminating — they are
total functions here) octave-folding loops is a positive real in
`[40, 5000]` Hz, for every candidate frequency whatsoever. -/
theorem C10_frequency_safety (f : Freq) (L : ℕ) (normalizedLen r : ℚ) (a : AnalysisResult)
    (name : ScaleName) (hL : 1 ≤ L) :
    (0 : ℝ) < (sanitizeLoopFreq f).val ∧
    (40 : ℝ) ≤ (sanitizeLoopFreq f).val ∧
    (sanitizeLoopFreq f).val ≤ 5000 ∧
    0 ≤ noteIndexOf L normalizedLen r ∧
    noteIndexOf L normalizedLen r ≤ (L : ℤ) - 1 ∧
    5 ≤ (SCALES name).length ∧
    5 ≤ (chooseScale a).length := by
  obtain ⟨hm, hlo, hhi⟩ := sanitizeLoopFreq_val12_bounds f
  have hL1 : (0 : ℤ) ≤ (L : ℤ) - 1 := by
    have : (1 : ℤ) ≤ (L : ℤ) := by exact_mod_cast hL
    omega
  refine ⟨Freq.val_pos hm, Freq.val_ge_forty hm hlo, Freq.val_le_fivethousand hhi, ?_, ?_, ?_, ?_⟩
  · rw [noteIndexOf]
    split
    · rfl
    · exact le_max_left _ _
  · rw [noteIndexOf]
    split
    · exact hL1
    · exact max_le hL1 (min_le_left _ _)
  · cases name <;> rw [SCALES] <;> norm_num
  · rw [chooseScale]
    split
    · rw [SCALES]
      norm_num
    · split <;> rw [SCALES] <;> norm_num

/-- Witness for C10 at a concrete input: candidate frequency 0 (forced to
440 Hz), scale length 5. -/
theorem C10_witness :
    0 ≤ noteIndexOf 5 0 0 ∧ noteIndexOf 5 0 0 ≤ (5 : ℤ) - 1 :=
  ⟨(C10_frequency_safety ⟨0, 0⟩ 5 0 0 ⟨1, 0, 0, 0⟩ .pentatonic (by norm_num)).2.2.2.1,
   (C10_frequency_safety ⟨0, 0⟩ 5 0 0 ⟨1, 0, 0, 0⟩ .pentatonic (by norm_num)).2.2.2.2.1⟩

/-- Counterexample for C8 as stated: with no recorded segments, no live
segment and a positive total extent, `buildDashArray` emits the degenerate
pattern `0 CIRCLE_CIRCUMFERENCE` — two entries (not one per segment, of which
there are zero), beginning with `0` although the sequence does not begin with
an off segment (it has no first segment at all). -/
theorem C8_counterexample :
    buildDashArray 377 [] none 0 1000 = [0, 377] ∧
    (buildDashArray 377 [] none 0 1000).length ≠ ([] : List SegmentInput).length ∧
    (buildDashArray 377 [] none 0 1000).head? = some 0 := by
  have h : buildDashArray 377 [] none 0 1000 = [0, 377] := by
    rw [buildDashArray, if_neg (by norm_num : ¬ (1000 : ℚ) ≤ 0)]
    rfl
  refine ⟨h, ?_, ?_⟩
  · rw [h]
    simp
  · rw [h]
    rfl

/-- C8 amended: for every segment list plus optional open live segment whose
combined sequence is non-empty, and every positive total extent, the
visual-pattern builder emits exactly one length per combined segment (the
map below), each clamped to at least 1 unit, preceded by a zero-length
leading dash entry if and only if the first segment is a gap. -/
theorem C8_visual_pattern_shape (circ : ℚ) (segments : List SegmentInput)
    (liveType : Option SegType) (liveDuration totalDurationMs : ℚ)
    (a : SegmentInput) (tail : List SegmentInput) (htot : 0 < totalDurationMs)
    (hcons : segments ++ liveSegList liveType liveDuration = a :: tail) :
    buildDashArray circ segments liveType liveDuration totalDurationMs =
      (if a.ty = SegType.gap then [0] else []) ++
      (a :: tail).map
        (fun s => ((max 1 (jsRound (s.duration * (circ / totalDurationMs))) : ℤ) : ℚ)) ∧
    (∀ s : SegmentInput,
      (1 : ℚ) ≤ ((max 1 (jsRound (s.duration * (circ / totalDurationMs))) : ℤ) : ℚ)) ∧
    ((buildDashArray circ segments liveType liveDuration totalDurationMs).head? = some 0 ↔
      a.ty = SegType.gap) := by
  have hlen : ∀ s : SegmentInput,
      (1 : ℚ) ≤ ((max 1 (jsRound (s.duration * (circ / totalDurationMs))) : ℤ) : ℚ) := by
    intro s
    exact_mod_cast le_max_left 1 (jsRound (s.duration * (circ / totalDurationMs)))
  have heq : buildDashArray circ segments liveType liveDuration totalDurationMs =
      (if a.ty = SegType.gap then [0] else []) ++
      (a :: tail).map
        (fun s => ((max 1 (jsRound (s.duration * (circ / totalDurationMs))) : ℤ) : ℚ)) := by
    simp only [buildDashArray, hcons]
    rw [if_neg (not_le.mpr htot), dif_neg (List.cons_ne_nil a tail)]
    simp only [List.head_cons]
    split
    · rfl
    · rfl
  refine ⟨heq, hlen, ?_⟩
  rw [heq]
  by_cases hgap : a.ty = SegType.gap
  · simp [hgap]
  · rw [if_neg hgap, List.nil_append, List.map_cons, List.head?_cons]
    apply iff_of_false _ hgap
    intro hsome
    rw [Option.some_inj] at hsome
    have h1 := hlen a
    rw [hsome] at h1
    norm_num at h1

/-- Witness for C8 at a concrete input: one 500 ms dash segment, total 500 ms. -/
theorem C8_witness :
    buildDashArray 377 [SegmentInput.mk SegType.dash 500] none 0 500 = [377] := by
  have h := (C8_visual_pattern_shape 377 [SegmentInput.mk SegType.dash 500] none 0 500
    (SegmentInput.mk SegType.dash 500) [] (by norm_num) (by rw [liveSegList]; rfl)).1
  rw [h, if_neg (by decide : ¬ (SegmentInput.mk SegType.dash 500).ty = SegType.gap),
    List.nil_append, List.map_cons, List.map_nil]
  have hjr : jsRound ((500 : ℚ) * (377 / 500)) = 377 := by
    rw [jsRound]
    norm_num
  rw [hjr, max_eq_right (by norm_num : (1 : ℤ) ≤ 377)]
  norm_num

/-- Counterexample for C3 as stated: for the zero-length pattern `[0]` (one
segment of length 0, which is what the empty dash-array attribute parses to,
since `Number('') = 0`) with rotation period 1 s, `loopCircleAudio` schedules
no notes but still arms the recurring scheduler timer — it is not a no-op. -/
theorem C3_counterexample :
    armsTimer (loopCircleAudio 1000 [0] 1000 0 1 0) = true ∧
    notesOf (loopCircleAudio 1000 [0] 1000 0 1 0) = [] := by
  constructor
  · rw [loopCircleAudio, if_neg (by simp : ¬ ([0] : List ℚ) = [])]
    rfl
  · rw [loopCircleAudio, if_neg (by simp : ¬ ([0] : List ℚ) = [])]
    rw [notesOf]
    simp only [Option.elim]
    rw [scheduleOneRotation]
    apply foldl_scheduleSeg_notes_nil
    intro seg hseg
    rw [show dashToSegs 0 [(0 : ℚ)] = [SegmentLength.mk SegType.dash 0] from rfl] at hseg
    rw [List.mem_singleton] at hseg
    rw [hseg]
    intro hc
    have := hc.2
    norm_num at this

/-- C3 amended: degenerate inputs to the loop-scheduling operation never
schedule a note and never raise an error, but only an empty parsed dash array
takes the early-return no-op: an all-zero-length pattern or a zero rotation
period still arms the recurring scheduler timer (with only empty rotations),
and with a zero rotation period the tick's fill loop never terminates (it
never finishes for any amount of fuel once the watermark is below the
horizon). -/
theorem C3_degenerate_behaviour (w : ℚ) (dashArray : List ℚ) (holdMs px : ℚ) (seed : ℕ)
    (now : ℚ) :
    (dashArray = [] → loopCircleAudio w dashArray holdMs px seed now = none) ∧
    ((∀ l ∈ dashArray, l = 0) ∨ holdMs = 0 →
      notesOf (loopCircleAudio w dashArray holdMs px seed now) = []) ∧
    (armsTimer (loopCircleAudio w dashArray holdMs px seed now) = true ↔ dashArray ≠ []) ∧
    (∀ su horizon : ℚ, su < horizon → ∀ fuel : ℕ, tickLoopFuel 0 horizon fuel su = none) := by
  refine ⟨fun h => ?_, fun h => ?_, ?_, ?_⟩
  · rw [loopCircleAudio, if_pos h]
  · by_cases hda : dashArray = []
    · rw [loopCircleAudio, if_pos hda]
      rfl
    · rw [loopCircleAudio, if_neg hda, notesOf]
      simp only [Option.elim]
      rw [scheduleOneRotation]
      apply foldl_scheduleSeg_notes_nil
      intro seg hseg
      intro hc
      rcases h with hzero | hhold
      · have hlenmem := dashToSegs_length_mem 0 dashArray seg hseg
        have hlen0 : seg.length = 0 := hzero _ hlenmem
        have := hc.2
        rw [hlen0] at this
        norm_num at this
      · have := hc.2
        rw [hhold] at this
        norm_num at this
  · by_cases hda : dashArray = []
    · rw [loopCircleAudio, if_pos hda, armsTimer]
      simp [hda]
    · rw [loopCircleAudio, if_neg hda, armsTimer]
      simp [hda]
  · intro su horizon hlt fuel
    induction fuel generalizing su with
    | zero => rw [tickLoopFuel, if_pos hlt]
    | succ fuel ih =>
      rw [tickLoopFuel, if_pos hlt, add_zero]
      exact ih su hlt

/-- Witness for C3 (amended) at a concrete input: the all-zero pattern `[0]`
with a 1 s rotation period schedules no notes, and the zero-period fill loop
starting below the horizon never finishes with fuel 5. -/
theorem C3_witness :
    notesOf (loopCircleAudio 1000 [0] 1000 5 7 0) = [] ∧
    tickLoopFuel 0 (1 / 10) 5 (1 / 50) = none :=
  ⟨(C3_degenerate_behaviour 1000 [0] 1000 5 7 0).2.1 (Or.inl (by simp)),
   (C3_degenerate_behaviour 1000 [0] 1000 5 7 0).2.2.2 (1 / 50) (1 / 10) (by norm_num) 5⟩

theorem sanitizeLoopFreq_eq_self {f : Freq} (hm : ¬ f.mant ≤ 0)
    (h40 : ¬ (f.mant ^ 12 * (2 : ℚ) ^ f.tw < 40 ^ 12))
    (h5000 : ¬ ((5000 : ℚ) ^ 12 < f.mant ^ 12 * (2 : ℚ) ^ f.tw)) :
    sanitizeLoopFreq f = f := by
  rw [sanitizeLoopFreq, if_neg hm]
  have hup : foldUpSteps f = 0 := by
    rw [foldUpSteps]
    apply leastSat_eq_start
    show (!decide ((f.mant * 2 ^ (0 : ℕ)) ^ 12 * (2 : ℚ) ^ f.tw < 40 ^ 12)) = true
    simp only [Bool.not_eq_true', decide_eq_false_iff_not, pow_zero, mul_one]
    exact h40
  have hfu : foldUp f = f := by
    rw [foldUp, hup, pow_zero, mul_one]
  rw [hfu]
  have hdn : foldDownSteps f = 0 := by
    rw [foldDownSteps]
    apply leastSat_eq_start
    show (!decide ((5000 : ℚ) ^ 12 < (f.mant / 2 ^ (0 : ℕ)) ^ 12 * (2 : ℚ) ^ f.tw)) = true
    simp only [Bool.not_eq_true', decide_eq_false_iff_not, pow_zero, div_one]
    exact h5000
  rw [foldDown, hdn, pow_zero, div_one]

theorem loopCircleAudio_single_dash (w l holdMs px : ℚ) (seed : ℕ) (now : ℚ)
    (hl : l ≠ 0) (hhold : 0 < holdMs) :
    loopCircleAudio w [l] holdMs px seed now =
      some ⟨holdMs / 1000,
        [(sanitizeLoopFreq
            ⟨220 * (199 / 200 + mulberryOut (seed + mulberryDelta + mulberryDelta) / 100),
              jsRound ((max 0 (min px w) / w - 1 / 2) * 8)⟩,
          now + 1 / 50, l / l * (holdMs / 1000))],
        now + 1 / 50 + l / l * (holdMs / 1000)⟩ := by
  rw [loopCircleAudio, if_neg (by simp : ¬ ([l] : List ℚ) = [])]
  have hsum : qOr1 (List.sum [l]) = l := by
    rw [List.sum_cons, List.sum_nil, add_zero, qOr1, if_neg hl]
  simp only [hsum, dashToSegs, if_true]
  have hcomplexity : (analyzeSegments [⟨SegType.dash, l⟩] l).complexity = 1 := rfl
  have hscale : chooseScale (analyzeSegments [⟨SegType.dash, l⟩] l) = SCALES .pentatonic := by
    rw [chooseScale, if_pos (by rw [hcomplexity]; norm_num)]
  simp only [hscale, hcomplexity]
  rw [scheduleOneRotation, List.foldl_cons, List.foldl_nil, scheduleSeg]
  rw [if_pos (And.intro rfl (by rw [div_self hl, one_mul]; positivity))]
  simp only [mulberryNext]
  rw [div_self hl]
  have hlen5 : (SCALES .pentatonic).length = 5 := rfl
  rw [hlen5]
  have hni : noteIndexOf 5 1 (mulberryOut (seed + mulberryDelta)) = 0 := by
    rw [noteIndexOf]
    exact if_pos (by norm_num)
  rw [hni]
  have hgetD : (SCALES .pentatonic).getD ((0 : ℤ).toNat) 0 = 220 := rfl
  rw [hgetD, List.nil_append]

/-- Counterexample for C4 as stated: two entities with the same seed (1), the
same finalized single-dash pattern `[300]` and the same rotation period
(500 ms), but different horizontal positions (x = 0 and x = 1000 on a
1000-wide window), yield first-rotation triples with the same start offsets
and durations but different frequencies: the per-entity transposition is −4
semitones for one and +4 for the other, so the two frequencies differ as real
numbers. -/
theorem C4_counterexample :
    notesOf (loopCircleAudio 1000 [300] 500 0 1 0) =
      [(⟨940194190727 / 4294967296, -4⟩, 1 / 50, 1 / 2)] ∧
    notesOf (loopCircleAudio 1000 [300] 500 1000 1 0) =
      [(⟨940194190727 / 4294967296, 4⟩, 1 / 50, 1 / 2)] ∧
    (⟨(940194190727 : ℚ) / 4294967296, -4⟩ : Freq).val <
      (⟨(940194190727 : ℚ) / 4294967296, 4⟩ : Freq).val := by
  have hmul : mulberryOut (1 + mulberryDelta + mulberryDelta) = 11749833 / 4294967296 := by
    rw [mulberryOut,
      show mulberryOutNat (1 + mulberryDelta + mulberryDelta) = 11749833 from by decide]
    norm_num
  have hmant : (220 : ℚ) * (199 / 200 + 11749833 / 4294967296 / 100) =
      940194190727 / 4294967296 := by norm_num
  have hsanA : sanitizeLoopFreq ⟨(940194190727 : ℚ) / 4294967296, -4⟩ =
      ⟨(940194190727 : ℚ) / 4294967296, -4⟩ :=
    sanitizeLoopFreq_eq_self (by norm_num) (by norm_num) (by norm_num)
  have hsanB : sanitizeLoopFreq ⟨(940194190727 : ℚ) / 4294967296, 4⟩ =
      ⟨(940194190727 : ℚ) / 4294967296, 4⟩ :=
    sanitizeLoopFreq_eq_self (by norm_num) (by norm_num) (by norm_num)
  have htwA : jsRound ((max 0 (min (0 : ℚ) 1000) / 1000 - 1 / 2) * 8) = -4 := by
    rw [min_eq_left (by norm_num : (0 : ℚ) ≤ 1000), max_self, jsRound]
    norm_num
  have htwB : jsRound ((max 0 (min (1000 : ℚ) 1000) / 1000 - 1 / 2) * 8) = 4 := by
    rw [min_self, max_eq_right (by norm_num : (0 : ℚ) ≤ 1000), jsRound]
    norm_num
  refine ⟨?_, ?_, ?_⟩
  · rw [loopCircleAudio_single_dash 1000 300 500 0 1 0 (by norm_num) (by norm_num)]
    simp only [notesOf, Option.elim]
    rw [hmul, hmant, htwA, hsanA]
    norm_num
  · rw [loopCircleAudio_single_dash 1000 300 500 1000 1 0 (by norm_num) (by norm_num)]
    simp only [notesOf, Option.elim]
    rw [hmul, hmant, htwB, hsanB]
    norm_num
  · exact Freq.val_lt_of_tw_lt (by norm_num) (by norm_num)

/-- C4 amended: two entities whose runtime state is constructed with the same
RNG seed, the same position (hence the same per-entity transposition and the
same window), and which are given the same finalized segment sequence and
rotation period, produce identical first-rotation outcomes — in particular
identical (frequency, start-time-offset, duration) triples. -/
theorem C4_determinism (w : ℚ) (dash1 dash2 : List ℚ) (hold1 hold2 px1 px2 : ℚ)
    (seed1 seed2 : ℕ) (now : ℚ) (hdash : dash1 = dash2) (hhold : hold1 = hold2)
    (hpx : px1 = px2) (hseed : seed1 = seed2) :
    notesOf (loopCircleAudio w dash1 hold1 px1 seed1 now) =
      notesOf (loopCircleAudio w dash2 hold2 px2 seed2 now) := by
  rw [hdash, hhold, hpx, hseed]

/-- Witness for C4 (amended) at a concrete input. -/
theorem C4_witness :
    notesOf (loopCircleAudio 1000 [300] 500 0 1 0) =
      notesOf (loopCircleAudio 1000 [300] 500 0 1 0) :=
  C4_determinism 1000 [300] [300] 500 500 0 0 1 1 0 rfl rfl rfl rfl

/-- Counterexample for C1 as stated: rotation period 0.03 s > 0.  After the
initial fill at `now = 0` (one rotation at 0.02, watermark 0.05), the first
tick fires at the code's own nominal tick delay `SCHEDULER_INTERVAL_MS`
(0.05 s).  Since the watermark 0.05 is below `current + 0.01`, the tick
restarts at `current + 0.02 = 0.07`: its rotations start at 0.07, 0.10, 0.13
— not at the previous watermark 0.05 — and the watermark jumps to 0.16, so
the instants in (0.05, 0.07) are never scheduled. -/
theorem C1_counterexample :
    (tickOnce (3 / 100) (3 / 100) (1 / 20) (1 / 20)).1 = [7 / 100, 1 / 10, 13 / 100] ∧
    (tickOnce (3 / 100) (3 / 100) (1 / 20) (1 / 20)).2 = 4 / 25 ∧
    (7 : ℚ) / 100 ≠ 1 / 20 := by
  have hsteps : stepsNeeded (1 / 20 + 1 / 50) (1 / 20 + LOOP_SCHEDULE_AHEAD_SEC) (3 / 100) = 3 := by
    apply stepsNeeded_eq_of (by norm_num)
    · rw [LOOP_SCHEDULE_AHEAD_SEC]
      norm_num
    · intro k hk
      rw [LOOP_SCHEDULE_AHEAD_SEC]
      interval_cases k <;> norm_num
  have hif : (if (1 : ℚ) / 20 < 1 / 20 + 1 / 100 then (1 : ℚ) / 20 + 1 / 50 else 1 / 20) =
      1 / 20 + 1 / 50 := if_pos (by norm_num)
  refine ⟨?_, ?_, by norm_num⟩
  · show (List.range (stepsNeeded (if (1 : ℚ) / 20 < 1 / 20 + 1 / 100 then (1 : ℚ) / 20 + 1 / 50 else 1 / 20)
      (1 / 20 + LOOP_SCHEDULE_AHEAD_SEC) (3 / 100))).map
      (fun (k : ℕ) => (if (1 : ℚ) / 20 < 1 / 20 + 1 / 100 then (1 : ℚ) / 20 + 1 / 50 else 1 / 20) +
        (k : ℚ) * (3 / 100)) = [7 / 100, 1 / 10, 13 / 100]
    rw [hif, hsteps]
    simp [List.range_succ]
    norm_num
  · show (if (stepsNeeded (if (1 : ℚ) / 20 < 1 / 20 + 1 / 100 then (1 : ℚ) / 20 + 1 / 50 else 1 / 20)
      (1 / 20 + LOOP_SCHEDULE_AHEAD_SEC) (3 / 100)) = 0 then (1 : ℚ) / 20
      else (if (1 : ℚ) / 20 < 1 / 20 + 1 / 100 then (1 : ℚ) / 20 + 1 / 50 else 1 / 20) +
        (((stepsNeeded (if (1 : ℚ) / 20 < 1 / 20 + 1 / 100 then (1 : ℚ) / 20 + 1 / 50 else 1 / 20)
          (1 / 20 + LOOP_SCHEDULE_AHEAD_SEC) (3 / 100)) : ℚ) - 1) * (3 / 100) + 3 / 100) = 4 / 25
    rw [hif, hsteps]
    norm_num

/-- C1 amended: with a positive rotation period and a pattern of positive
total length (so that each scheduled rotation advances the persisted
watermark by exactly the rotation period, `adv = rotationPeriod`, see
`scheduleOneRotation_t`): unconditionally, one `schedulerTick` execution
never decreases the `scheduledUntil` watermark, and ends with the watermark
at least `current + LOOP_SCHEDULE_AHEAD_SEC` (so at least the current
playback time — the lookahead window is filled); moreover, whenever the
watermark has not fallen within 0.01 s of the current time (which is
preserved from tick to tick as long as consecutive tick times advance by at
most `LOOP_SCHEDULE_AHEAD_SEC - 0.01`, last conjunct), the tick schedules
whole rotations starting exactly at the previous watermark, consecutive
starts exactly one rotation period apart — no instant between consecutive
rotations left uncovered and none scheduled twice — and advances the
watermark by exactly one rotation period per scheduled rotation.  When the
watermark has fallen behind (possible at the first tick when the rotation
period is smaller than the first tick delay minus 0.01 s, since the initial
fill schedules only one rotation), the tick instead restarts from
`current + 0.02`, skipping the instants in between — see
`C1_counterexample`. -/
theorem C1_scheduler_watermark (rotationPeriod adv current stored : ℚ)
    (hp : 0 < rotationPeriod) (hadv : adv = rotationPeriod) :
    (stored ≤ (tickOnce rotationPeriod adv current stored).2 ∧
      current + LOOP_SCHEDULE_AHEAD_SEC ≤ (tickOnce rotationPeriod adv current stored).2) ∧
    (current + 1 / 100 ≤ stored →
      (tickOnce rotationPeriod adv current stored).1 =
        (List.range (tickOnce rotationPeriod adv current stored).1.length).map
          (fun (k : ℕ) => stored + (k : ℚ) * rotationPeriod) ∧
      (tickOnce rotationPeriod adv current stored).2 =
        stored + (tickOnce rotationPeriod adv current stored).1.length * rotationPeriod ∧
      ∀ c : ℚ, c ≤ current + (LOOP_SCHEDULE_AHEAD_SEC - 1 / 100) →
        c + 1 / 100 ≤ (tickOnce rotationPeriod adv current stored).2) := by
  rw [hadv]
  set su1 := if stored < current + 1 / 100 then current + 1 / 50 else stored with hsu
  set n := stepsNeeded su1 (current + LOOP_SCHEDULE_AHEAD_SEC) rotationPeriod with hn
  have hfst : (tickOnce rotationPeriod rotationPeriod current stored).1 =
      (List.range n).map (fun (k : ℕ) => su1 + (k : ℚ) * rotationPeriod) := rfl
  have hsnd : (tickOnce rotationPeriod rotationPeriod current stored).2 =
      if n = 0 then stored else su1 + ((n : ℚ) - 1) * rotationPeriod + rotationPeriod := rfl
  have hspec := @stepsNeeded_spec su1 (current + LOOP_SCHEDULE_AHEAD_SEC) rotationPeriod hp
  rw [← hn] at hspec
  have hlen : (tickOnce rotationPeriod rotationPeriod current stored).1.length = n := by
    rw [hfst, List.length_map, List.length_range]
  have hsu_ge : stored ≤ su1 := by
    rw [hsu]
    split
    · next h => linarith
    · exact le_rfl
  have hsnd2 : (tickOnce rotationPeriod rotationPeriod current stored).2 =
      if n = 0 then stored else su1 + (n : ℚ) * rotationPeriod := by
    rw [hsnd]
    rcases Nat.eq_zero_or_pos n with h0 | hpos
    · rw [if_pos h0, if_pos h0]
    · rw [if_neg (by omega), if_neg (by omega)]
      ring
  constructor
  · constructor
    · rw [hsnd2]
      rcases Nat.eq_zero_or_pos n with h0 | hpos
      · rw [if_pos h0]
      · rw [if_neg (by omega)]
        have hge : (0 : ℚ) ≤ (n : ℚ) * rotationPeriod := by positivity
        linarith
    · rw [hsnd2]
      rcases Nat.eq_zero_or_pos n with h0 | hpos
      · rw [if_pos h0]
        rw [h0] at hspec
        push_cast at hspec
        have hnb : ¬ stored < current + 1 / 100 := by
          intro hb
          rw [hsu, if_pos hb] at hspec
          rw [LOOP_SCHEDULE_AHEAD_SEC] at hspec
          linarith
        rw [hsu, if_neg hnb] at hspec
        linarith
      · rw [if_neg (by omega)]
        linarith
  · intro hinv
    have hnb : ¬ stored < current + 1 / 100 := not_lt.mpr hinv
    have hsu_eq : su1 = stored := by
      rw [hsu, if_neg hnb]
    refine ⟨?_, ?_, ?_⟩
    · rw [hlen, hfst, hsu_eq]
    · rw [hsnd2, hlen, hsu_eq]
      rcases Nat.eq_zero_or_pos n with h0 | hpos
      · rw [if_pos h0, h0]
        push_cast
        ring
      · rw [if_neg (by omega)]
    · intro c hc
      rw [hsnd2]
      rcases Nat.eq_zero_or_pos n with h0 | hpos
      · rw [if_pos h0]
        rw [h0] at hspec
        push_cast at hspec
        rw [hsu_eq] at hspec
        linarith
      · rw [if_neg (by omega)]
        have hge : (0 : ℚ) ≤ ((n : ℚ) - 1) * rotationPeriod := by
          have hn1 : (1 : ℚ) ≤ (n : ℚ) := by exact_mod_cast hpos
          nlinarith
        rw [hsu_eq] at hspec ⊢
        linarith

/-- Witness for C1 (amended) at a concrete input: rotation period 1 s, tick
at time 0, watermark 1. -/
theorem C1_witness :
    (1 : ℚ) ≤ (tickOnce 1 1 0 1).2 ∧
    (0 : ℚ) + LOOP_SCHEDULE_AHEAD_SEC ≤ (tickOnce 1 1 0 1).2 :=
  (C1_scheduler_watermark 1 1 0 1 (by norm_num) rfl).1

end SvgPlayground

